import Mathlib

/-
Verification of the transcript execution core: the windowed metrics engine
(`Metrics`, used per lane and in aggregate) and the lane scheduler's
dispatch loop (`execution.py`).  Python dictionaries are embedded as
association lists, machine numbers as rationals, fallible operations as
`Except`/`Option`.
-/

set_option maxHeartbeats 1000000

namespace Transcript

/-! ## The windowed metrics engine -/

/-- A field store: association list from field name to a (value, count)
pair, embedding the Python dictionaries used by the metrics engine. -/
abbrev Store := List (String × (ℚ × ℚ))

/-- Dictionary read with default `(0, 0)` (the `dict.get(f, 0)` idiom). -/
def sget : Store → String → ℚ × ℚ
  | [], _ => (0, 0)
  | (g, p) :: rest, f => if g = f then p else sget rest f

/-- Dictionary read-modify-write: add `(v, c)` to the entry for `f`,
creating the entry when absent. -/
def sadd : Store → String → ℚ → ℚ → Store
  | [], f, v, c => [(f, (v, c))]
  | (g, p) :: rest, f, v, c =>
    if g = f then (g, (p.1 + v, p.2 + c)) :: rest
    else (g, p) :: sadd rest f v c

/-- Modelled from the spec: the `Metrics` entity of the terminal module,
whose source file is not in the repository snapshot (only its tests in
`test/test_terminal.py` and its callers in `execution.py` are).  Per spec
section 3: `current` holds pending uncommitted per-field deltas, `snapshot`
the committed cumulative values, `history` the committed
(snapshot copy, elapsed) entries, `duration` the total elapsed time across
commits, `window` the retention horizon used by trimming. -/
structure Metrics where
  window : ℚ
  current : Store
  snapshot : Store
  history : List (Store × ℚ)
  duration : ℚ
deriving DecidableEq

/-- Modelled from the spec: a fresh metrics entity. -/
def Metrics.init (w : ℚ) : Metrics :=
  { window := w, current := [], snapshot := [], history := [], duration := 0 }

/-- Modelled from the spec: `update(field, value, count)` adds `value` to
`current[field]`'s pending delta and accumulates the occurrence `count`;
no effect on `snapshot`/`history`/`duration`. -/
def Metrics.update (m : Metrics) (f : String) (v c : ℚ) : Metrics :=
  { m with current := sadd m.current f v c }

/-- Modelled from the spec: `changes()` — the field names with nonzero
pending deltas since the last commit. -/
def Metrics.changes (m : Metrics) : List String :=
  (m.current.filter (fun p => decide (p.2.1 ≠ 0))).map Prod.fst

/-- Fold every pending delta of `cur` into the committed store `snap`
(the `snapshot[field] += current[field]` loop of `commit`). -/
def foldStore (snap cur : Store) : Store :=
  cur.foldl (fun acc p => sadd acc p.1 p.2.1 p.2.2) snap

/-- Modelled from the spec: `commit(elapsed)` folds pending deltas into the
snapshot, appends the history entry `(snapshot copy, elapsed)`, adds
`elapsed` to `duration` and clears `current`. -/
def Metrics.commit (m : Metrics) (e : ℚ) : Metrics :=
  { m with
    snapshot := foldStore m.snapshot m.current
    history := m.history ++ [(foldStore m.snapshot m.current, e)]
    duration := m.duration + e
    current := [] }

/-- Total elapsed time covered by a history segment. -/
def sumElapsed (h : List (Store × ℚ)) : ℚ := (h.map Prod.snd).sum

/-- Modelled from the spec: drop the history entries whose interval end
marker lies strictly before the cutoff `duration − window`; an entry ending
exactly at the cutoff is retained.  An entry's end marker is the entity's
`duration` minus the elapsed time of all later entries, so the retention
test for one entry is `sumElapsed rest ≤ W`. -/
def trimH (W : ℚ) : List (Store × ℚ) → List (Store × ℚ)
  | [] => []
  | e :: rest => if W < sumElapsed rest then trimH W rest else e :: trimH W rest

/-- Modelled from the spec: `trim(window=W)` bounds history growth;
`snapshot`, `duration` and `current` are untouched. -/
def Metrics.trim (m : Metrics) (W : ℚ) : Metrics :=
  { m with history := trimH W m.history }

/-- Modelled from the spec: `total(field) = snapshot.get(field, 0) +
current.get(field, 0)`. -/
def Metrics.total (m : Metrics) (f : String) : ℚ :=
  (sget m.snapshot f).1 + (sget m.current f).1

/-- Modelled from the spec: `recent(field) = snapshot.get(field, 0)`. -/
def Metrics.recent (m : Metrics) (f : String) : ℚ :=
  (sget m.snapshot f).1

/-- Modelled from the spec: `rate(field) = total(field) / duration`, failing
with a division-by-zero condition when `duration == 0`; the error is
propagated, not recovered. -/
def Metrics.rate (m : Metrics) (f : String) : Except Unit ℚ :=
  if m.duration = 0 then Except.error () else Except.ok (m.total f / m.duration)

/-- Modelled from the spec: `delta(field_names)` maps exactly the given
fields to their `recent` values. -/
def Metrics.delta (m : Metrics) (fs : List String) : List (String × ℚ) :=
  fs.map (fun f => (f, m.recent f))

/-- Modelled from the spec: `clear()` resets everything but `window`. -/
def Metrics.clear (m : Metrics) : Metrics :=
  { m with current := [], snapshot := [], history := [], duration := 0 }

/-! ### Operation traces over a metrics entity -/

/-- One call against a metrics entity: an `update` or a `commit`. -/
inductive MOp
  | upd (f : String) (v c : ℚ)
  | com (e : ℚ)
deriving DecidableEq

/-- Run a sequence of `update`/`commit` calls. -/
def Metrics.run (m : Metrics) : List MOp → Metrics
  | [] => m
  | MOp.upd f v c :: rest => (m.update f v c).run rest
  | MOp.com e :: rest => (m.commit e).run rest

/-- The pending delta for field `f` contributed by one call, given the
delta accumulated so far: an update for `f` adds its value, a commit
resets the pending delta. -/
def pendingStep (f : String) (acc : ℚ) : MOp → ℚ
  | MOp.upd g v _ => if g = f then acc + v else acc
  | MOp.com _ => 0

/-- Sum of the pending uncommitted deltas for `f` after a call sequence:
the values of the updates to `f` made since the last commit. -/
def pendingSum (ops : List MOp) (f : String) : ℚ :=
  ops.foldl (pendingStep f) 0

/-! ### Store lemmas -/

theorem sget_sadd (s : Store) (f g : String) (v c : ℚ) :
    sget (sadd s f v c) g =
      if g = f then ((sget s f).1 + v, (sget s f).2 + c) else sget s g := by
  induction s with
  | nil =>
    by_cases h : g = f
    · subst h; simp [sadd, sget]
    · have h2 : ¬ f = g := fun hf => h hf.symm
      simp [sadd, sget, h, h2]
  | cons hd tl ih =>
    obtain ⟨k, p⟩ := hd
    by_cases hk : k = f
    · subst hk
      by_cases h : g = k
      · subst h; simp [sadd, sget]
      · have h2 : ¬ k = g := fun hkg => h hkg.symm
        simp [sadd, sget, h, h2]
    · by_cases h : g = k
      · subst h
        have hgf : ¬ g = f := fun hgf => hk hgf
        simp [sadd, sget, hk, hgf]
      · have hkg : ¬ k = g := fun hkg => h hkg.symm
        simp [sadd, sget, hk, hkg, h, ih]

theorem sget_of_not_mem (s : Store) (f : String)
    (h : f ∉ s.map Prod.fst) : sget s f = (0, 0) := by
  induction s with
  | nil => rfl
  | cons hd tl ih =>
    obtain ⟨k, p⟩ := hd
    simp only [List.map_cons, List.mem_cons] at h
    push_neg at h
    have hk : ¬ k = f := fun hk => h.1 hk.symm
    simp [sget, hk, ih h.2]

theorem sget_foldStore (cur snap : Store) (f : String)
    (h : (cur.map Prod.fst).Nodup) :
    sget (foldStore snap cur) f =
      ((sget snap f).1 + (sget cur f).1, (sget snap f).2 + (sget cur f).2) := by
  induction cur generalizing snap with
  | nil => simp [foldStore, sget]
  | cons hd tl ih =>
    obtain ⟨g, p⟩ := hd
    simp only [List.map_cons, List.nodup_cons] at h
    have hfold : foldStore snap ((g, p) :: tl) = foldStore (sadd snap g p.1 p.2) tl := rfl
    rw [hfold, ih _ h.2, sget_sadd]
    by_cases hf : f = g
    · subst hf
      have htl : sget tl f = (0, 0) := sget_of_not_mem tl f h.1
      simp [sget, htl]
    · have hgf : ¬ g = f := fun hgf => hf hgf.symm
      simp [sget, hf, hgf]

/-! ### The pending-delta invariant (C1) -/

theorem run_current (ops : List MOp) (m : Metrics) (f : String) :
    (sget (m.run ops).current f).1 =
      ops.foldl (pendingStep f) (sget m.current f).1 := by
  induction ops generalizing m with
  | nil => rfl
  | cons op rest ih =>
    cases op with
    | upd g v c =>
      show (sget ((m.update g v c).run rest).current f).1 = _
      rw [ih]
      have hc : (sget (m.update g v c).current f).1 =
          pendingStep f (sget m.current f).1 (MOp.upd g v c) := by
        show (sget (sadd m.current g v c) f).1 = _
        rw [sget_sadd]
        by_cases h : f = g
        · subst h; simp [pendingStep]
        · have hgf : ¬ g = f := fun hgf => h hgf.symm
          simp [pendingStep, h, hgf]
      rw [hc]
      rfl
    | com e =>
      show (sget ((m.commit e).run rest).current f).1 = _
      rw [ih]
      have hc : (sget (m.commit e).current f).1 =
          pendingStep f (sget m.current f).1 (MOp.com e) := by
        show (sget ([] : Store) f).1 = 0
        rfl
      rw [hc]
      rfl

/-- C1: for every metrics entity reached from a fresh one by any sequence of
`update`/`commit` calls and every field, `total(field)` equals
`snapshot.get(field, 0) + current.get(field, 0)`, which equals
`recent(field)` plus the sum of the pending uncommitted deltas for that
field (the values of the updates since the last commit); `recent(field)`
equals `snapshot.get(field, 0)`, and an update with no subsequent commit
leaves `recent(field)` unchanged. -/
theorem C1_metrics_invariant (ops : List MOp) (w : ℚ) (f : String) :
    ((Metrics.init w).run ops).total f =
        (sget ((Metrics.init w).run ops).snapshot f).1 +
        (sget ((Metrics.init w).run ops).current f).1 ∧
    ((Metrics.init w).run ops).total f =
        ((Metrics.init w).run ops).recent f + pendingSum ops f ∧
    ((Metrics.init w).run ops).recent f =
        (sget ((Metrics.init w).run ops).snapshot f).1 ∧
    ∀ v c : ℚ,
      (((Metrics.init w).run ops).update f v c).recent f =
        ((Metrics.init w).run ops).recent f := by
  refine ⟨rfl, ?_, rfl, fun v c => rfl⟩
  have h := run_current ops (Metrics.init w) f
  have h0 : (sget (Metrics.init w).current f).1 = 0 := rfl
  rw [h0] at h
  show (sget ((Metrics.init w).run ops).snapshot f).1 +
      (sget ((Metrics.init w).run ops).current f).1 =
      (sget ((Metrics.init w).run ops).snapshot f).1 + pendingSum ops f
  rw [h]
  rfl

/-! ### Rate (C3) -/

/-- C3: `rate(field)` fails with the division-by-zero condition exactly when
`duration == 0`, and otherwise returns `total(field) / duration`; the error
is propagated to the caller, never recovered internally. -/
theorem C3_rate_division_by_zero (m : Metrics) (f : String) :
    (m.rate f = Except.error () ↔ m.duration = 0) ∧
    (¬ m.duration = 0 → m.rate f = Except.ok (m.total f / m.duration)) := by
  constructor
  · constructor
    · intro h
      by_contra hd
      rw [Metrics.rate, if_neg hd] at h
      exact Except.noConfusion h
    · intro h
      rw [Metrics.rate, if_pos h]
  · intro h
    rw [Metrics.rate, if_neg h]

/-- Witness for C3: on a fresh entity the rate of any field fails, and after
`commit 2` it returns `total / duration`. -/
theorem C3_rate_division_by_zero_witness :
    ((Metrics.init 8).rate "k" = Except.error () ↔ (Metrics.init 8).duration = 0) ∧
    ((Metrics.init 8).commit 2).rate "k" =
      Except.ok (((Metrics.init 8).commit 2).total "k" /
        ((Metrics.init 8).commit 2).duration) :=
  ⟨(C3_rate_division_by_zero (Metrics.init 8) "k").1,
   (C3_rate_division_by_zero ((Metrics.init 8).commit 2) "k").2
     (by norm_num [Metrics.commit, Metrics.init])⟩

/-! ### Trim (C4) -/

/-- The interval end marker of each history entry, for an entity of total
duration `d`: the last entry ends at `d`, and each entry ends where the
elapsed time of all later entries begins. -/
def markers (d : ℚ) : List (Store × ℚ) → List ℚ
  | [] => []
  | _ :: rest => (d - sumElapsed rest) :: markers d rest

/-- Retention test on a (history entry, end marker) pair: the marker is at
or after the cutoff. -/
def keepEntry (cutoff : ℚ) (p : (Store × ℚ) × ℚ) : Bool :=
  decide (cutoff ≤ p.2)

theorem trimH_filter (W d : ℚ) (h : List (Store × ℚ)) :
    trimH W h =
      ((h.zip (markers d h)).filter (keepEntry (d - W))).map Prod.fst := by
  induction h with
  | nil => rfl
  | cons e rest ih =>
    have hz : (e :: rest).zip (markers d (e :: rest)) =
        (e, d - sumElapsed rest) :: rest.zip (markers d rest) := rfl
    rw [hz, List.filter_cons]
    simp only [trimH]
    by_cases hc : W < sumElapsed rest
    · have hb : keepEntry (d - W) (e, d - sumElapsed rest) = false := by
        rw [keepEntry, decide_eq_false_iff_not]
        show ¬ (d - W ≤ d - sumElapsed rest)
        intro hle
        have hle2 : sumElapsed rest ≤ W := by linarith
        exact absurd hc (not_lt.mpr hle2)
      rw [hb, if_neg Bool.false_ne_true, if_pos hc]
      exact ih
    · have hb : keepEntry (d - W) (e, d - sumElapsed rest) = true := by
        rw [keepEntry, decide_eq_true_eq]
        show d - W ≤ d - sumElapsed rest
        have hle : sumElapsed rest ≤ W := not_lt.mp hc
        linarith
      rw [hb, if_pos rfl, if_neg hc, List.map_cons]
      exact congrArg (List.cons e) ih

/-- C4: `trim(window=W)` retains exactly the history entries whose interval
end marker is at least `duration − W` (an entry ending exactly at the cutoff
is kept, one ending strictly before it is removed), and leaves `snapshot`,
`duration` and `current` unchanged, so `total` and `recent` are unchanged. -/
theorem C4_trim_window (m : Metrics) (W : ℚ) :
    (m.trim W).snapshot = m.snapshot ∧
    (m.trim W).duration = m.duration ∧
    (m.trim W).current = m.current ∧
    (m.trim W).history =
      ((m.history.zip (markers m.duration m.history)).filter
        (keepEntry (m.duration - W))).map Prod.fst ∧
    (∀ f, (m.trim W).total f = m.total f) ∧
    (∀ f, (m.trim W).recent f = m.recent f) :=
  ⟨rfl, rfl, rfl, trimH_filter W m.duration m.history,
   fun _ => rfl, fun _ => rfl⟩

/-! ### Commit (C5) -/

/-- C5: `commit(elapsed)` folds each pending delta into the cumulative
snapshot, appends exactly one history entry `(new snapshot, elapsed)`, adds
`elapsed` to `duration`, clears `current` so `changes()` is empty right
after the commit; and `commit 0` on a fresh entity yields history length 1
and duration 0.  The hypothesis states that the pending-delta dictionary
has no duplicated keys, which every Python dict satisfies. -/
theorem C5_commit (m : Metrics) (e : ℚ)
    (h : (m.current.map Prod.fst).Nodup) :
    (∀ f, (sget (m.commit e).snapshot f).1 =
        (sget m.snapshot f).1 + (sget m.current f).1) ∧
    (m.commit e).history = m.history ++ [((m.commit e).snapshot, e)] ∧
    (m.commit e).history.length = m.history.length + 1 ∧
    (m.commit e).duration = m.duration + e ∧
    (m.commit e).current = [] ∧
    (m.commit e).changes = [] ∧
    ∀ w : ℚ, ((Metrics.init w).commit 0).history.length = 1 ∧
      ((Metrics.init w).commit 0).duration = 0 := by
  refine ⟨?_, rfl, by simp [Metrics.commit], rfl, rfl, rfl, fun w => ⟨rfl, by simp [Metrics.commit, Metrics.init]⟩⟩
  intro f
  rw [show (m.commit e).snapshot = foldStore m.snapshot m.current from rfl,
    sget_foldStore m.current m.snapshot f h]

/-- Witness for C5: a committed single pending delta lands in the snapshot
and clears the pending set. -/
theorem C5_commit_witness :
    (sget (((Metrics.init 8).update "k" 1 1).commit 2).snapshot "k").1 =
      (sget ((Metrics.init 8).update "k" 1 1).snapshot "k").1 +
      (sget ((Metrics.init 8).update "k" 1 1).current "k").1 ∧
    (((Metrics.init 8).update "k" 1 1).commit 2).current = [] :=
  ⟨(C5_commit ((Metrics.init 8).update "k" 1 1) 2 (by decide)).1 "k",
   (C5_commit ((Metrics.init 8).update "k" 1 1) 2 (by decide)).2.2.2.2.1⟩

/-! ## The dispatch loop's per-message event handling (`execution.py`) -/

/-- A metrics-report payload: the reported time and the zipped
(field name, units, counts) triples (`fields`/`units`/`counts` arrays). -/
structure MReport where
  rtime : ℚ
  fields : List (String × ℚ × ℚ)
deriving DecidableEq

/-- A decoded status frame: its event-kind symbol and, when the frame's
data is a metrics-protocol report, that report. -/
structure Frame where
  evtype : String
  report : Option MReport
deriving DecidableEq

/-- The open-transaction buffers of one job session: dictionary from
channel id to the frames accumulated for the open transaction
(`status['transactions']`, a defaultdict of lists). -/
abbrev Xacts := List (String × List Frame)

/-- Dictionary lookup in the transaction buffers. -/
def bufGet : Xacts → String → Option (List Frame)
  | [], _ => none
  | (d, l) :: rest, c => if d = c then some l else bufGet rest c

/-- `xacts[channel].append(msg)` on a defaultdict of lists. -/
def bufAppend : Xacts → String → Frame → Xacts
  | [], c, m => [(c, [m])]
  | (d, l) :: rest, c, m =>
    if d = c then (d, l ++ [m]) :: rest
    else (d, l) :: bufAppend rest c m

/-- `xacts.pop(channel)`: remove the channel's buffer. -/
def bufPop : Xacts → String → Xacts
  | [], _ => []
  | (d, l) :: rest, c => if d = c then rest else (d, l) :: bufPop rest c

/-- One recorded invocation of the end-of-transaction trap `traps.eox`
(the monitor argument, fixed per lane, is omitted). -/
structure EoxCall where
  stopF : Frame
  startF : Frame
  middle : List Frame
  qual : Option String
deriving DecidableEq

/-- The state the dispatch loop's message handler touches for one lane:
the lane's metrics, the aggregate metrics, the lane's transaction buffers,
the job channel-qualifier `status['channel']`, and the trace of
end-of-transaction trap invocations. -/
structure DState where
  metrics : Metrics
  mtotals : Metrics
  xacts : Xacts
  statusChannel : Option String
  eoxCalls : List EoxCall
deriving DecidableEq

/-- The metrics-report field loop of `dispatch` (execution.py lines
211-216): each (name, units, counts) triple updates the lane metrics and
the aggregate metrics. -/
def applyFields (st : DState) : List (String × ℚ × ℚ) → DState
  | [] => st
  | p :: rest =>
    applyFields
      { st with
        metrics := st.metrics.update p.1 p.2.1 p.2.2
        mtotals := st.mtotals.update p.1 p.2.1 p.2.2 }
      rest

/-- The metrics-report branch of `dispatch` (lines 206-216): update the
`duration` field with the reported time on both entities, then stream in
the field triples. -/
def applyReport (st : DState) (r : MReport) : DState :=
  applyFields
    { st with
      metrics := st.metrics.update "duration" r.rtime 1
      mtotals := st.mtotals.update "duration" r.rtime 1 }
    r.fields

/-- Run the metrics-report branch when the frame carries a report. -/
def reportPhase (st : DState) (msg : Frame) : DState :=
  match msg.report with
  | some r => applyReport st r
  | none => st

/-- The `start, *messages, stop = buffer` unpacking: with at least two
frames the trap-invocation trace grows by one call (stop frame, start
frame, in-between frames, qualifier); with fewer, the `ValueError` is
swallowed and the trace is unchanged. -/
def closeBuf (calls : List EoxCall) (q : Option String) : List Frame → List EoxCall
  | startF :: b :: more =>
    calls ++ [⟨(b :: more).getLastD startF, startF, (b :: more).dropLast, q⟩]
  | _ => calls

/-- The `transaction-stopped` branch (lines 218-227): decrement the
`executing` gauge on both entities, pop the channel's buffer, and when it
unpacks as `start, *messages, stop` (at least two frames) invoke the
end-of-transaction trap with (stop, start, in-between, channel
qualifier); otherwise (ValueError) discard the buffer silently. -/
def stoppedPhase (st : DState) (channel : String) : DState :=
  let stC : DState :=
    { st with
      metrics := st.metrics.update "executing" (-1) 0
      mtotals := st.mtotals.update "executing" (-1) 0 }
  { stC with
    xacts := bufPop stC.xacts channel
    eoxCalls :=
      closeBuf stC.eoxCalls stC.statusChannel
        ((bufGet stC.xacts channel).getD []) }

/-- One iteration of the message loop of `dispatch` (lines 201-230) for a
`(channel, msg)` pair: append the message to the channel's
open-transaction buffer, run the metrics-report branch when applicable,
then dispatch on the event symbol. -/
def handleFrame (st : DState) (channel : String) (msg : Frame) : DState :=
  let stB := reportPhase { st with xacts := bufAppend st.xacts channel msg } msg
  if msg.evtype = "transaction-stopped" then
    stoppedPhase stB channel
  else if msg.evtype = "transaction-started" then
    { stB with
      metrics := stB.metrics.update "executing" 1 0
      mtotals := stB.mtotals.update "executing" 1 0 }
  else stB

/-! ### Handler lemmas -/

theorem applyFields_xacts (fs : List (String × ℚ × ℚ)) (st : DState) :
    (applyFields st fs).xacts = st.xacts := by
  induction fs generalizing st with
  | nil => rfl
  | cons p rest ih => exact ih _

theorem applyFields_statusChannel (fs : List (String × ℚ × ℚ)) (st : DState) :
    (applyFields st fs).statusChannel = st.statusChannel := by
  induction fs generalizing st with
  | nil => rfl
  | cons p rest ih => exact ih _

theorem applyFields_eoxCalls (fs : List (String × ℚ × ℚ)) (st : DState) :
    (applyFields st fs).eoxCalls = st.eoxCalls := by
  induction fs generalizing st with
  | nil => rfl
  | cons p rest ih => exact ih _

theorem reportPhase_xacts (st : DState) (msg : Frame) :
    (reportPhase st msg).xacts = st.xacts := by
  cases h : msg.report with
  | none => rw [reportPhase, h]
  | some r => rw [reportPhase, h]; exact applyFields_xacts _ _

theorem reportPhase_statusChannel (st : DState) (msg : Frame) :
    (reportPhase st msg).statusChannel = st.statusChannel := by
  cases h : msg.report with
  | none => rw [reportPhase, h]
  | some r => rw [reportPhase, h]; exact applyFields_statusChannel _ _

theorem reportPhase_eoxCalls (st : DState) (msg : Frame) :
    (reportPhase st msg).eoxCalls = st.eoxCalls := by
  cases h : msg.report with
  | none => rw [reportPhase, h]
  | some r => rw [reportPhase, h]; exact applyFields_eoxCalls _ _

theorem bufGet_bufAppend_self (x : Xacts) (c : String) (m : Frame) :
    bufGet (bufAppend x c m) c = some ((bufGet x c).getD [] ++ [m]) := by
  induction x with
  | nil => simp [bufAppend, bufGet]
  | cons hd rest ih =>
    obtain ⟨d, l⟩ := hd
    by_cases hd : d = c
    · subst hd; simp [bufAppend, bufGet]
    · simp [bufAppend, bufGet, hd, ih]

theorem bufGet_of_not_mem (x : Xacts) (c : String)
    (h : c ∉ x.map Prod.fst) : bufGet x c = none := by
  induction x with
  | nil => rfl
  | cons hd rest ih =>
    obtain ⟨d, l⟩ := hd
    simp only [List.map_cons, List.mem_cons] at h
    push_neg at h
    have hd2 : ¬ d = c := fun hd2 => h.1 hd2.symm
    simp [bufGet, hd2, ih h.2]

theorem mem_keys_bufAppend (x : Xacts) (c e : String) (m : Frame)
    (h : e ∈ (bufAppend x c m).map Prod.fst) :
    e ∈ x.map Prod.fst ∨ e = c := by
  induction x with
  | nil =>
    simp only [bufAppend, List.map_cons, List.map_nil, List.mem_singleton] at h
    exact Or.inr h
  | cons hd rest ih =>
    obtain ⟨d, l⟩ := hd
    by_cases hd2 : d = c
    · subst hd2
      have hba : bufAppend ((d, l) :: rest) d m = (d, l ++ [m]) :: rest := by
        simp [bufAppend]
      rw [hba] at h
      simp only [List.map_cons, List.mem_cons] at h ⊢
      exact Or.inl h
    · simp only [bufAppend, if_neg hd2, List.map_cons, List.mem_cons] at h ⊢
      rcases h with h | h
      · exact Or.inl (Or.inl h)
      · rcases ih h with h2 | h2
        · exact Or.inl (Or.inr h2)
        · exact Or.inr h2

theorem keys_bufAppend_nodup (x : Xacts) (c : String) (m : Frame)
    (h : (x.map Prod.fst).Nodup) :
    ((bufAppend x c m).map Prod.fst).Nodup := by
  induction x with
  | nil => simp [bufAppend]
  | cons hd rest ih =>
    obtain ⟨d, l⟩ := hd
    simp only [List.map_cons, List.nodup_cons] at h
    by_cases hd2 : d = c
    · subst hd2
      have hba : bufAppend ((d, l) :: rest) d m = (d, l ++ [m]) :: rest := by
        simp [bufAppend]
      rw [hba]
      simp only [List.map_cons, List.nodup_cons]
      exact ⟨h.1, h.2⟩
    · simp only [bufAppend, if_neg hd2, List.map_cons, List.nodup_cons]
      refine ⟨fun hmem => ?_, ih h.2⟩
      rcases mem_keys_bufAppend rest c d m hmem with h2 | h2
      · exact h.1 h2
      · exact hd2 h2

theorem bufGet_bufPop_self (x : Xacts) (c : String)
    (h : (x.map Prod.fst).Nodup) :
    bufGet (bufPop x c) c = none := by
  induction x with
  | nil => rfl
  | cons hd rest ih =>
    obtain ⟨d, l⟩ := hd
    simp only [List.map_cons, List.nodup_cons] at h
    by_cases hd2 : d = c
    · subst hd2
      rw [show bufPop ((d, l) :: rest) d = rest from by simp [bufPop]]
      exact bufGet_of_not_mem rest d h.1
    · simp [bufPop, hd2, bufGet, ih h.2]

/-! ### Transaction close semantics (C2) -/

/-- C2: on a `transaction-stopped` message, when the channel's buffer held
at least one frame (so with the appended stop frame it holds a start and a
stop), the handler pops the buffer and records exactly one
end-of-transaction trap invocation with (stop frame, start frame,
in-between frames, job channel-qualifier); when the buffer was empty (a
lone stop with no prior start) the buffer is discarded silently with zero
trap invocations; in both cases the channel's buffer is gone afterwards.
The nodup hypothesis renders the key uniqueness of the Python dict. -/
theorem C2_transaction_stopped (st : DState) (c : String) (msg : Frame)
    (hnd : (st.xacts.map Prod.fst).Nodup)
    (hev : msg.evtype = "transaction-stopped") :
    ((bufGet st.xacts c).getD [] = [] →
        (handleFrame st c msg).eoxCalls = st.eoxCalls) ∧
    (∀ startF mid, (bufGet st.xacts c).getD [] = startF :: mid →
        (handleFrame st c msg).eoxCalls =
          st.eoxCalls ++ [⟨msg, startF, mid, st.statusChannel⟩]) ∧
    bufGet (handleFrame st c msg).xacts c = none := by
  have hHF : handleFrame st c msg =
      stoppedPhase (reportPhase { st with xacts := bufAppend st.xacts c msg } msg) c := by
    rw [handleFrame, if_pos hev]
  set stB := reportPhase { st with xacts := bufAppend st.xacts c msg } msg with hstB
  have hx : stB.xacts = bufAppend st.xacts c msg := by
    rw [hstB, reportPhase_xacts]
  have hq : stB.statusChannel = st.statusChannel := by
    rw [hstB, reportPhase_statusChannel]
  have he : stB.eoxCalls = st.eoxCalls := by
    rw [hstB, reportPhase_eoxCalls]
  have hbuf : bufGet stB.xacts c = some ((bufGet st.xacts c).getD [] ++ [msg]) := by
    rw [hx]; exact bufGet_bufAppend_self st.xacts c msg
  have heox : (stoppedPhase stB c).eoxCalls =
      closeBuf stB.eoxCalls stB.statusChannel ((bufGet stB.xacts c).getD []) := rfl
  have hxac : (stoppedPhase stB c).xacts = bufPop stB.xacts c := rfl
  refine ⟨?_, ?_, ?_⟩
  · intro hempty
    rw [hHF, heox, hbuf, Option.getD_some, hempty, List.nil_append, he, hq]
    rfl
  · intro startF mid hcons
    rw [hHF, heox, hbuf, Option.getD_some, hcons, he, hq, List.cons_append]
    cases mid with
    | nil => rfl
    | cons b rest2 =>
      rw [List.cons_append,
        show closeBuf st.eoxCalls st.statusChannel
            (startF :: b :: (rest2 ++ [msg])) =
          st.eoxCalls ++ [⟨(b :: (rest2 ++ [msg])).getLastD startF, startF,
            (b :: (rest2 ++ [msg])).dropLast, st.statusChannel⟩] from rfl,
        show b :: (rest2 ++ [msg]) = (b :: rest2) ++ [msg] from rfl,
        List.getLastD_eq_getLast?, List.getLast?_concat, List.dropLast_concat]
      rfl
  · rw [hHF, hxac, hx]
    exact bufGet_bufPop_self _ c (keys_bufAppend_nodup st.xacts c msg hnd)

/-- A start frame carrying no metrics report. -/
def sampleStart : Frame := { evtype := "transaction-started", report := none }

/-- A stop frame carrying no metrics report. -/
def sampleStop : Frame := { evtype := "transaction-stopped", report := none }

/-- A lane state whose channel `ch` holds one open-transaction frame. -/
def sampleDState : DState :=
  { metrics := Metrics.init 8
    mtotals := Metrics.init 8
    xacts := [("ch", [sampleStart])]
    statusChannel := some "q"
    eoxCalls := [] }

/-- Witness for C2: a start frame followed by a stop frame on channel `ch`
produces exactly one trap invocation with the recorded arguments, and the
buffer is popped. -/
theorem C2_transaction_stopped_witness :
    (handleFrame sampleDState "ch" sampleStop).eoxCalls =
      sampleDState.eoxCalls ++ [⟨sampleStop, sampleStart, [], some "q"⟩] ∧
    bufGet (handleFrame sampleDState "ch" sampleStop).xacts "ch" = none :=
  ⟨(C2_transaction_stopped sampleDState "ch" sampleStop (by decide) rfl).2.1
      sampleStart [] (by decide),
   (C2_transaction_stopped sampleDState "ch" sampleStop (by decide) rfl).2.2⟩

/-! ### The executing gauge (C10) -/

theorem total_update_self (m : Metrics) (f : String) (v c : ℚ) :
    (m.update f v c).total f = m.total f + v := by
  show (sget m.snapshot f).1 + (sget (sadd m.current f v c) f).1 =
    ((sget m.snapshot f).1 + (sget m.current f).1) + v
  rw [sget_sadd, if_pos rfl]
  ring

theorem handleFrame_stopped_metrics (st : DState) (c : String) (msg : Frame)
    (hev : msg.evtype = "transaction-stopped") (hrep : msg.report = none) :
    (handleFrame st c msg).metrics.total "executing" =
      st.metrics.total "executing" - 1 := by
  rw [handleFrame, if_pos hev, reportPhase, hrep]
  have h1 : (stoppedPhase { st with xacts := bufAppend st.xacts c msg } c).metrics
      = st.metrics.update "executing" (-1) 0 := rfl
  rw [h1, total_update_self]
  ring

theorem handleFrame_stopped_mtotals (st : DState) (c : String) (msg : Frame)
    (hev : msg.evtype = "transaction-stopped") (hrep : msg.report = none) :
    (handleFrame st c msg).mtotals.total "executing" =
      st.mtotals.total "executing" - 1 := by
  rw [handleFrame, if_pos hev, reportPhase, hrep]
  have h1 : (stoppedPhase { st with xacts := bufAppend st.xacts c msg } c).mtotals
      = st.mtotals.update "executing" (-1) 0 := rfl
  rw [h1, total_update_self]
  ring

/-- C10: a transaction-stopped message (carrying no metrics report)
decrements the `executing` field of both the lane metrics and the
aggregate metrics by 1 regardless of the state of the transaction buffer —
in particular an unmatched stop whose buffer is discarded without a trap
still decrements — so on a fresh state a lone stop drives the aggregate
`executing` gauge negative. -/
theorem C10_executing_decrement (st : DState) (c : String) (msg : Frame)
    (hev : msg.evtype = "transaction-stopped")
    (hrep : msg.report = none) :
    (handleFrame st c msg).metrics.total "executing" =
        st.metrics.total "executing" - 1 ∧
    (handleFrame st c msg).mtotals.total "executing" =
        st.mtotals.total "executing" - 1 ∧
    (handleFrame ⟨Metrics.init 8, Metrics.init 8, [], none, []⟩ "ch"
        ⟨"transaction-stopped", none⟩).mtotals.total "executing" < 0 := by
  refine ⟨handleFrame_stopped_metrics st c msg hev hrep,
    handleFrame_stopped_mtotals st c msg hev hrep, ?_⟩
  rw [handleFrame_stopped_mtotals ⟨Metrics.init 8, Metrics.init 8, [], none, []⟩
    "ch" ⟨"transaction-stopped", none⟩ rfl rfl]
  have h0 : (⟨Metrics.init 8, Metrics.init 8, [], none, []⟩ : DState).mtotals.total
      "executing" = 0 := by
    show (sget [] "executing").1 + (sget [] "executing").1 = 0
    norm_num [sget]
  rw [h0]
  norm_num

/-- Witness for C10: a lone stop frame decrements the lane gauge on a
fresh state. -/
theorem C10_executing_decrement_witness :
    (handleFrame ⟨Metrics.init 4, Metrics.init 4, [], none, []⟩ "c2"
        ⟨"transaction-stopped", none⟩).metrics.total "executing" =
      (⟨Metrics.init 4, Metrics.init 4, [], none, []⟩ : DState).metrics.total
        "executing" - 1 :=
  (C10_executing_decrement ⟨Metrics.init 4, Metrics.init 4, [], none, []⟩ "c2"
    ⟨"transaction-stopped", none⟩ rfl rfl).1

/-! ## The metrics tick of the dispatch loop (C6) -/

/-- One display-layer notification issued during a metrics tick:
`stctl.update(monitors[i], ...)` for a lane, or the aggregate update for
the summary monitor. -/
inductive CtlCall
  | lane (i : ℕ) (delta : List (String × ℚ))
  | aggregate (delta : List (String × ℚ))
deriving DecidableEq

/-- The tick's elapsed value (execution.py lines 233-236): the measured
milliseconds since the previous tick, replaced by one time unit when zero
(`or 1`), converted to seconds. -/
def tickElapsed (measuredMs : ℕ) : ℚ :=
  (if measuredMs = 0 then 1 else (measuredMs : ℚ)) / 1000

/-- The per-lane body of the tick loop (lines 240-245): capture
`changes()`, `commit(elapsed)`, `trim(window)`, then notify the Control
layer with the delta of the captured fields. -/
def laneStep (e W : ℚ) (acc : List Metrics × List CtlCall) (m : Metrics) :
    List Metrics × List CtlCall :=
  (acc.1 ++ [(m.commit e).trim W],
   acc.2 ++ [CtlCall.lane acc.1.length (((m.commit e).trim W).delta m.changes)])

/-- The whole metrics tick (lines 232-253): every lane's metrics first, in
lane order, then the aggregate metrics, all with the same elapsed value. -/
def metricsTick (measuredMs : ℕ) (W : ℚ) (lanes : List Metrics)
    (totals : Metrics) : List Metrics × Metrics × List CtlCall :=
  let e := tickElapsed measuredMs
  let lc := lanes.foldl (laneStep e W) ([], [])
  (lc.1, (totals.commit e).trim W,
   lc.2 ++ [CtlCall.aggregate (((totals.commit e).trim W).delta totals.changes)])

theorem foldl_laneStep (e W : ℚ) (lanes : List Metrics) (acc : List Metrics)
    (calls : List CtlCall) :
    lanes.foldl (laneStep e W) (acc, calls) =
      (acc ++ lanes.map (fun m => (m.commit e).trim W),
       calls ++ (lanes.enumFrom acc.length).map (fun p =>
         CtlCall.lane p.1 (((p.2.commit e).trim W).delta p.2.changes))) := by
  induction lanes generalizing acc calls with
  | nil => simp
  | cons m rest ih =>
    rw [List.foldl_cons,
      show laneStep e W (acc, calls) m =
        (acc ++ [(m.commit e).trim W],
         calls ++ [CtlCall.lane acc.length
           (((m.commit e).trim W).delta m.changes)]) from rfl,
      ih]
    simp [List.enumFrom, List.append_assoc]

/-- C6: on a metrics tick, a measured elapsed of zero is replaced by one
time unit (one millisecond, i.e. 1/1000 second); every lane's metrics is
committed and then trimmed with the tick's single elapsed value, the
aggregate likewise; the Control notifications are one per lane in lane
order followed by the aggregate's last, and each notification carries the
delta for exactly the fields whose pending deltas were nonzero at the
moment of the commit (`changes()` captured just before committing). -/
theorem C6_metrics_tick (measuredMs : ℕ) (W : ℚ) (lanes : List Metrics)
    (totals : Metrics) :
    (measuredMs = 0 → tickElapsed measuredMs = 1 / 1000) ∧
    (measuredMs ≠ 0 → tickElapsed measuredMs = (measuredMs : ℚ) / 1000) ∧
    (metricsTick measuredMs W lanes totals).1 =
      lanes.map (fun m => (m.commit (tickElapsed measuredMs)).trim W) ∧
    (metricsTick measuredMs W lanes totals).2.1 =
      (totals.commit (tickElapsed measuredMs)).trim W ∧
    (metricsTick measuredMs W lanes totals).2.2 =
      (lanes.enumFrom 0).map (fun p =>
        CtlCall.lane p.1
          (((p.2.commit (tickElapsed measuredMs)).trim W).delta p.2.changes))
      ++ [CtlCall.aggregate
            (((totals.commit (tickElapsed measuredMs)).trim W).delta
              totals.changes)] := by
  have hfold := foldl_laneStep (tickElapsed measuredMs) W lanes [] []
  refine ⟨fun h => by rw [tickElapsed, if_pos h],
    fun h => by rw [tickElapsed, if_neg h], ?_, rfl, ?_⟩
  · show (lanes.foldl (laneStep (tickElapsed measuredMs) W) ([], [])).1 = _
    rw [hfold]
    simp
  · show (lanes.foldl (laneStep (tickElapsed measuredMs) W) ([], [])).2 ++ _ = _
    rw [hfold]
    simp

/-- Witness for C6: a zero measured elapsed becomes 1/1000, and on one
fresh lane the aggregate is committed and trimmed with that elapsed. -/
theorem C6_metrics_tick_witness :
    tickElapsed 0 = 1 / 1000 ∧
    (metricsTick 0 8 [Metrics.init 8] (Metrics.init 8)).2.1 =
      ((Metrics.init 8).commit (tickElapsed 0)).trim 8 :=
  ⟨(C6_metrics_tick 0 8 [] (Metrics.init 8)).1 rfl,
   (C6_metrics_tick 0 8 [Metrics.init 8] (Metrics.init 8)).2.2.2.1⟩

/-! ## Admission of a work item (C7) -/

/-- One process spec produced by a Plan: (category, dimensions,
channel-qualifier, context, launch descriptor); the launch descriptor is
reduced to the process id its spawn returns. -/
structure ProcSpec where
  category : String
  dimensions : List String
  xqual : String
  spawnPid : ℕ
deriving DecidableEq

/-- A job session record (`statusd[lid]`): current channel-qualifier,
work-item source, the remaining process-spec queue, and the active
process id when one has been spawned (`'pid' in status`). -/
structure Session where
  channel : Option String
  source : ℕ
  processQueue : List ProcSpec
  pid : Option ℕ
deriving DecidableEq

/-- `statusd[lid] = sess` on the session table. -/
def setSession : List (ℕ × Session) → ℕ → Session → List (ℕ × Session)
  | [], k, v => [(k, v)]
  | (j, s) :: rest, k, v =>
    if j = k then (j, v) :: rest else (j, s) :: setSession rest k v

/-- `statusd.get(lid)` on the session table. -/
def getSession : List (ℕ × Session) → ℕ → Option Session
  | [], _ => none
  | (j, s) :: rest, k => if j = k then some s else getSession rest k

/-- The observable state of the admission step: the session table, the
deque of available lanes, and the traces of `queue.finish`,
`stctl.erase`, `stctl.install`, `ioa.connect` and process spawns. -/
structure AdmissionState where
  statusd : List (ℕ × Session)
  available : List ℕ
  finished : List ℕ
  erased : List ℕ
  installs : List ℕ
  connectedLanes : List ℕ
  spawnedPids : List ℕ
deriving DecidableEq

/-- Admission of one work item (execution.py lines 109-132): pop a lane
from the available deque, store a fresh session record in `statusd`, and
launch the plan's first process.  When the plan immediately yields no
spec, `_launch` returns `None`: the item is reported finished, the
monitor erased, and the lane appended back to the deque — the session
record stored at line 113 is not removed.  Otherwise the session gains
the channel-qualifier and spawned pid, and the lane is connected and its
monitor installed. -/
def admitOne (st : AdmissionState) (ident : ℕ) (plan : List ProcSpec) :
    AdmissionState :=
  match st.available with
  | [] => st
  | lid :: restAvail =>
    match plan with
    | [] =>
      { st with
        statusd := setSession st.statusd lid ⟨none, ident, [], none⟩
        available := restAvail ++ [lid]
        finished := st.finished ++ [ident]
        erased := st.erased ++ [lid] }
    | spec :: restPlan =>
      { st with
        statusd := setSession st.statusd lid
          ⟨some spec.xqual, ident, restPlan, some spec.spawnPid⟩
        available := restAvail
        spawnedPids := st.spawnedPids ++ [spec.spawnPid]
        connectedLanes := st.connectedLanes ++ [lid]
        installs := st.installs ++ [lid] }

/-- C7: admitting a work item whose plan yields no process spec reports
the item finished and returns the lane to the pool with nothing spawned
or connected — but the session record created for the admission is NOT
destroyed: `statusd` still maps the lane to the fresh record, so the lane
still holds a JobSession, contradicting the claim (and defeating the
loop's own `if not statusd` EOF check, whose comment documents that an
empty table means end of processing). -/
theorem C7_empty_plan_session_retained :
    (admitOne ⟨[], [0], [], [], [], [], []⟩ 7 []).finished = [7] ∧
    (admitOne ⟨[], [0], [], [], [], [], []⟩ 7 []).available = [0] ∧
    (admitOne ⟨[], [0], [], [], [], [], []⟩ 7 []).spawnedPids = [] ∧
    (admitOne ⟨[], [0], [], [], [], [], []⟩ 7 []).connectedLanes = [] ∧
    getSession (admitOne ⟨[], [0], [], [], [], [], []⟩ 7 []).statusd 0 =
      some ⟨none, 7, [], none⟩ :=
  ⟨rfl, rfl, rfl, rfl, rfl⟩

/-! ## Shutdown cleanup of the dispatch loop (C8) -/

/-- An error raised inside the `finally` block that the `except` clause
does not cover and that therefore escapes the kill loop. -/
inductive CleanupError
  | keyError
deriving DecidableEq

/-- The outcome propagated to the caller of `dispatch`: the loop body's
own outcome, or an error raised inside the `finally` block — in Python an
exception raised in a `finally` replaces the in-flight one. -/
inductive ExitError (E : Type)
  | fromBody (e : E)
  | fromCleanup (c : CleanupError)

/-- The kill loop of the `finally` block (lines 259-265), including the
`else` clause.  Per lane still tracked in the session table:
`statusd[lid]['pid']` missing raises `KeyError` and a dead process makes
`os.killpg` raise `ProcessLookupError`, both swallowed by the `except`
clause (skip to the next lane).  When `killpg` succeeds, the `else`
clause evaluates `status['pid']` on the stale `status` binding — the last
session dict the loop body touched, not `statusd[lid]` — and this runs
OUTSIDE the `except` clause: a pid-less stale dict raises an unswallowed
`KeyError` that aborts the loop; otherwise the stale pid is reaped.
Returns (pids signalled, pids reaped, escaping error if any). -/
def killLoop (alive : ℕ → Bool) (statusPid : Option ℕ) :
    List (ℕ × Option ℕ) → List ℕ × List ℕ × Option CleanupError
  | [] => ([], [], none)
  | (_, none) :: rest => killLoop alive statusPid rest
  | (_, some pid) :: rest =>
    if alive pid then
      match statusPid with
      | none => ([pid], [], some CleanupError.keyError)
      | some q =>
        let r := killLoop alive statusPid rest
        (pid :: r.1, q :: r.2.1, r.2.2)
    else killLoop alive statusPid rest

/-- What the `try/finally` of `dispatch` (lines 104, 257-265) leaves
behind: whether the FrameMultiplexer was released, which process groups
were sent SIGKILL, which pids were reaped by the `else` clause, and the
outcome propagated to the caller. -/
structure ExitOutcome (E : Type) where
  multiplexerReleased : Bool
  kills : List ℕ
  reaps : List ℕ
  result : Except (ExitError E) Unit

/-- The `finally` block (lines 257-265) run after the loop body finishes
with `body`: `ioa.__exit__` releases the multiplexer first on both the
normal and the error path, then the kill loop runs; an error escaping the
kill loop replaces the body's outcome, otherwise the body's outcome
propagates.  `statusPid` is the `'pid'` entry of the stale `status`
binding read by line 265 (`none` when that dict has no pid — a spawn
failure left it unset, or line 195 cleared it). -/
def dispatchCleanup (E : Type) (body : Except E Unit)
    (statusd : List (ℕ × Option ℕ)) (alive : ℕ → Bool)
    (statusPid : Option ℕ) : ExitOutcome E :=
  let r := killLoop alive statusPid statusd
  { multiplexerReleased := true
    kills := r.1
    reaps := r.2.1
    result :=
      match r.2.2 with
      | some c => Except.error (ExitError.fromCleanup c)
      | none =>
        match body with
        | Except.ok _ => Except.ok ()
        | Except.error e => Except.error (ExitError.fromBody e) }

/-- C8: the claim is right about the code's intent but the code violates
it.  Failing input: the loop body ends in an error while lanes 0 and 1
both hold live processes (pids 5 and 9) and the stale `status` binding
read at line 265 names a pid-less session dict (reachable: a spawn
failure on a later admission re-raised before `status['pid']` was
assigned, leaving lane 0 and lane 1 tracked).  The multiplexer is
released and lane 0's `killpg` succeeds, but then the `else` clause's
`execution.reap(status['pid'])` runs outside the `except` clause, raises
an unswallowed `KeyError`, aborts the kill loop before lane 1's live
process is signalled, and replaces the body's outcome — contradicting
the claim that every lookup failure during this cleanup is swallowed
rather than re-raised. -/
theorem C8_cleanup_keyerror_escapes :
    (dispatchCleanup Unit (Except.error ()) [(0, some 5), (1, some 9)]
        (fun _ => true) none).multiplexerReleased = true ∧
    (dispatchCleanup Unit (Except.error ()) [(0, some 5), (1, some 9)]
        (fun _ => true) none).kills = [5] ∧
    (dispatchCleanup Unit (Except.error ()) [(0, some 5), (1, some 9)]
        (fun _ => true) none).result =
      Except.error (ExitError.fromCleanup CleanupError.keyError) :=
  ⟨rfl, rfl, rfl⟩

/-! ## Pipe descriptors of a failed launch (C9) -/

/-- The process-wide file-descriptor ledger: the next descriptor the
kernel will hand out and the currently open descriptors. -/
structure FdState where
  nextFd : ℕ
  openFds : List ℕ
deriving DecidableEq

/-- Outcome of `_launch` (lines 62-78): plan exhausted (`None`), a
launched process with the read end kept open, or a spawn failure
propagated to the caller. -/
inductive LaunchResult
  | exhausted (fs : FdState)
  | launched (rfd : ℕ) (fs : FdState)
  | spawnFailed (fs : FdState)
deriving DecidableEq

/-- The descriptor behaviour of `_launch`: take the next process spec
(returning `None` on exhaustion before any allocation), allocate the pipe
pair `(rfd, wfd)`, spawn; on success close the write end, on a spawn
error close both ends and re-raise. -/
def launchFds (specs : List ProcSpec) (spawnOk : Bool) (fs : FdState) :
    LaunchResult :=
  match specs with
  | [] => LaunchResult.exhausted fs
  | _ :: _ =>
    let rfd := fs.nextFd
    let wfd := fs.nextFd + 1
    let fs1 : FdState := ⟨fs.nextFd + 2, fs.openFds ++ [rfd, wfd]⟩
    if spawnOk then LaunchResult.launched rfd ⟨fs1.nextFd, fs1.openFds.erase wfd⟩
    else LaunchResult.spawnFailed ⟨fs1.nextFd, (fs1.openFds.erase rfd).erase wfd⟩

/-- C9: when the spawn fails after the pipe pair has been allocated, both
pipe descriptors are closed before the failure propagates: the set of
open descriptors after the failed launch is exactly the set before it
(no descriptor is leaked by the failed admission attempt).  The
hypothesis states that every open descriptor is below the allocation
counter, which the kernel guarantees for fresh descriptors. -/
theorem C9_spawn_failure_no_leak (s : ProcSpec) (rest : List ProcSpec)
    (fs : FdState) (h : ∀ fd ∈ fs.openFds, fd < fs.nextFd) :
    launchFds (s :: rest) false fs =
      LaunchResult.spawnFailed ⟨fs.nextFd + 2, fs.openFds⟩ := by
  have h1 : fs.nextFd ∉ fs.openFds := fun hm => lt_irrefl _ (h _ hm)
  have h2 : fs.nextFd + 1 ∉ fs.openFds := fun hm => by
    have := h _ hm; omega
  show LaunchResult.spawnFailed
      ⟨fs.nextFd + 2,
        ((fs.openFds ++ [fs.nextFd, fs.nextFd + 1]).erase fs.nextFd).erase
          (fs.nextFd + 1)⟩ =
    LaunchResult.spawnFailed ⟨fs.nextFd + 2, fs.openFds⟩
  have e1 : (fs.openFds ++ [fs.nextFd, fs.nextFd + 1]).erase fs.nextFd =
      fs.openFds ++ [fs.nextFd + 1] := by
    rw [List.erase_append_right _ h1]
    simp
  have e2 : (fs.openFds ++ [fs.nextFd + 1]).erase (fs.nextFd + 1) =
      fs.openFds := by
    rw [List.erase_append_right _ h2]
    simp
  rw [e1, e2]

/-- Witness for C9: a failed spawn on a ledger holding descriptors 0-2
returns exactly those descriptors open. -/
theorem C9_spawn_failure_no_leak_witness :
    launchFds [⟨"host", [], "q0", 42⟩] false ⟨3, [0, 1, 2]⟩ =
      LaunchResult.spawnFailed ⟨5, [0, 1, 2]⟩ :=
  C9_spawn_failure_no_leak ⟨"host", [], "q0", 42⟩ [] ⟨3, [0, 1, 2]⟩ (by decide)

end Transcript
